import Mathlib

/-!
Verification of the multi-agent Ollama chat repository
(`src/multi_agent_chat.py`, `src/chat_with_model.py`).

The Python code is shallowly embedded: text is `List Char` (Python `str`),
the mutable `Agent` object becomes a record threaded through its operations,
the external Ollama runtime is a function parameter, and caught exceptions
become `Option`/`Except` values.
-/

/-! ## Sanitizer: `Agent.get_clean_response`

`re.sub(r'<think>.*?</think>', '', response, flags=re.DOTALL)` followed by
`str.strip()`.  `re.sub` repeatedly finds the leftmost match — which, for
this pattern with a lazy middle, starts at the first `<think>` and ends at
the first `</think>` after it — deletes it, and resumes scanning after the
deleted region (it never rescans already-produced output). -/

/-- The opening marker `<think>` as a character list. -/
def opnTag : List Char := ['<', 't', 'h', 'i', 'n', 'k', '>']

/-- The closing marker `</think>` as a character list. -/
def clsTag : List Char := ['<', '/', 't', 'h', 'i', 'n', 'k', '>']

/-- Does `pat` occur at the very start of the second list? -/
def startsWith : List Char → List Char → Bool
  | [], _ => true
  | _ :: _, [] => false
  | p :: ps, c :: cs => p == c && startsWith ps cs

/-- Split a list around the first occurrence of `pat`: returns the part
before the occurrence and the part after it, or `none` when `pat` does not
occur (for nonempty `pat`). -/
def splitFirst (pat : List Char) : List Char → Option (List Char × List Char)
  | [] => none
  | c :: cs =>
    if startsWith pat (c :: cs) then some ([], (c :: cs).drop pat.length)
    else
      match splitFirst pat cs with
      | some (pre, rest) => some (c :: pre, rest)
      | none => none

/-- Substring occurrence test, via `splitFirst`. -/
def containsSub (pat s : List Char) : Bool := (splitFirst pat s).isSome

/-- One fuel-indexed pass of the Python `re.sub` loop: find the first
`<think>`, then the first `</think>` after it; if both exist, delete that
whole region and continue after it, otherwise leave the text unchanged.
The fuel only bounds the recursion; `s.length` is always enough. -/
def removeThinkFuel : Nat → List Char → List Char
  | 0, s => s
  | fuel + 1, s =>
    match splitFirst opnTag s with
    | none => s
    | some (pre, rest) =>
      match splitFirst clsTag rest with
      | none => s
      | some (_, rest2) => pre ++ removeThinkFuel fuel rest2

/-- `re.sub(r'<think>.*?</think>', '', s, flags=re.DOTALL)` on `s`. -/
def removeThink (s : List Char) : List Char := removeThinkFuel s.length s

/-- Python `str.strip()` whitespace (ASCII whitespace characters). -/
def isPySpace (c : Char) : Bool :=
  c = ' ' || c = '\t' || c = '\n' || c = '\r' || c = '\x0b' || c = '\x0c'

/-- Python `str.strip()`: drop leading and trailing whitespace. -/
def pyStrip (s : List Char) : List Char :=
  ((s.dropWhile isPySpace).reverse.dropWhile isPySpace).reverse

/-- `Agent.get_clean_response` (it ignores `self`): strip the `<think>`
regions, then trim surrounding whitespace. -/
def get_clean_response (response : String) : String :=
  String.mk (pyStrip (removeThink response.data))

/-! ## Data model: `Agent`, chat settings, the Ollama runtime boundary -/

/-- One `{'role': ..., 'content': ...}` entry of `conversation_history`. -/
structure Message where
  role : String
  content : String
  deriving DecidableEq

/-- The `Agent` object (`__init__` fields).  The live Python object is
threaded through operations as an explicit value. -/
structure Agent where
  name : String
  model_name : String
  system_prompt : String
  conversation_history : List Message
  deriving DecidableEq

/-- `Agent.__init__`: the history starts empty. -/
def Agent.init (name model_name system_prompt : String) : Agent :=
  { name := name, model_name := model_name, system_prompt := system_prompt,
    conversation_history := [] }

/-- `Agent.add_message`: append one entry to `conversation_history`. -/
def add_message (a : Agent) (role content : String) : Agent :=
  { a with conversation_history :=
      a.conversation_history ++ [{ role := role, content := content }] }

/-- The `chat_settings` dict: the two recognized keys, each possibly
absent (`dict.get` supplies the default at the use site).  Python's float
`0.7` is modelled as the rational `7/10`. -/
structure ChatSettings where
  stream : Option Bool
  temperature : Option Rat
  deriving DecidableEq

/-- The argument record of an `ollama.chat(...)` call: which model, which
message list, whether streaming output was requested, and the sampling
temperature passed in `options`. -/
structure ChatRequest where
  model : String
  messages : List Message
  stream : Bool
  temperature : Rat
  deriving DecidableEq

/-- Outcome of an `ollama.chat` call: the finite chunk sequence on
success, or the message of the exception that the call (or iterating the
stream) raised. -/
inductive StreamResult where
  | ok (chunks : List String)
  | err (message : String)

/-- The `ollama.chat(...)` call issued by `Agent.stream_chat`
(multi_agent_chat.py lines 40-47): the whole history, `stream=True`
hardcoded, and `chat_settings.get('temperature', 0.7)`. -/
def streamChatRequest (a : Agent) (settings : ChatSettings) : ChatRequest :=
  { model := a.model_name
    messages := a.conversation_history
    stream := true
    temperature := settings.temperature.getD (7 / 10) }

/-- The `ollama.chat(...)` call issued by `chat_with_model`
(chat_with_model.py lines 63-73): a single user message,
`chat_settings.get('stream', True)` and `chat_settings.get('temperature', 0.7)`. -/
def chatWithModelRequest (model_name message : String) (settings : ChatSettings) : ChatRequest :=
  { model := model_name
    messages := [{ role := "user", content := message }]
    stream := settings.stream.getD true
    temperature := settings.temperature.getD (7 / 10) }

/-- `Agent.stream_chat`.  The user turn is appended first; then the
runtime is called.  On success the chunks are concatenated, sanitized and
appended as the assistant turn.  The `try/except` that swallows any
runtime failure and prints `Error from {name}: {e}` is modelled by
returning that message as a value instead of an assistant turn. -/
def stream_chat (a : Agent) (message : String) (settings : ChatSettings)
    (runtime : ChatRequest → StreamResult) : Agent × Option String :=
  let a1 := add_message a "user" message
  match runtime (streamChatRequest a1 settings) with
  | StreamResult.ok chunks =>
    let full_response := String.join chunks
    let clean_response := get_clean_response full_response
    (add_message a1 "assistant" clean_response, none)
  | StreamResult.err e => (a1, some ("Error from " ++ a.name ++ ": " ++ e))

/-! ## Orchestrator: `MultiAgentChat` -/

/-- One entry of the `models:` mapping in config.yaml. -/
structure ModelConfig where
  base_model : String
  custom_name : String
  system_prompt : String
  deriving DecidableEq

/-- The parsed config.yaml: both top-level keys may be absent. -/
structure Config where
  models : Option (List (String × ModelConfig))
  chat_settings : Option ChatSettings
  deriving DecidableEq

/-- The empty dict that `load_config` returns when the file cannot be
opened or parsed. -/
def emptyConfig : Config := { models := none, chat_settings := none }

/-- `MultiAgentChat.load_config` / `load_config`: the external file read
either yields a parsed config or fails; on failure an error is printed and
the empty dict is returned. -/
def load_config : Option Config → Config
  | none => emptyConfig
  | some c => c

/-- A Python exception that escapes (is never caught). -/
inductive PyError where
  | keyError (key : String)
  deriving DecidableEq

/-- `MultiAgentChat.setup_agents`: iterates `self.config['models'].items()`
— a `KeyError` escapes when the key is absent.  Per entry, `ollama.create`
(modelled by the `createOk` oracle) is tried; a failing entry is skipped
(its exception is caught), a succeeding one registers an `Agent`. -/
def setup_agents (cfg : Config) (createOk : String → ModelConfig → Bool) :
    Except PyError (List (String × Agent)) :=
  match cfg.models with
  | none => Except.error (PyError.keyError "models")
  | some ms =>
    Except.ok (ms.foldl
      (fun acc kv =>
        if createOk kv.1 kv.2 then
          acc ++ [(kv.1, Agent.init kv.1 kv.2.custom_name kv.2.system_prompt)]
        else acc)
      [])

/-- The `MultiAgentChat` object: its config and its agent registry. -/
structure MultiAgentChat where
  config : Config
  agents : List (String × Agent)
  deriving DecidableEq

/-- `MultiAgentChat.__init__`: load the config, then `setup_agents`; a
`KeyError` raised there propagates out of the constructor. -/
def MultiAgentChat.init (fileContents : Option Config)
    (createOk : String → ModelConfig → Bool) : Except PyError MultiAgentChat :=
  match setup_agents (load_config fileContents) createOk with
  | Except.error e => Except.error e
  | Except.ok ags => Except.ok { config := load_config fileContents, agents := ags }

/-- Python dict lookup `self.agents[name]` / `name in self.agents`. -/
def lookupAgent : List (String × Agent) → String → Option Agent
  | [], _ => none
  | (k, v) :: rest, n => if k = n then some v else lookupAgent rest n

/-- Replace the binding of `n` (the dict cell holding the mutated agent). -/
def updateAgent : List (String × Agent) → String → Agent → List (String × Agent)
  | [], _, _ => []
  | (k, v) :: rest, n, a => if k = n then (k, a) :: rest else (k, v) :: updateAgent rest n a

/-- What `chat_with_agents` reports per target name: either the
`"{name}: Agent not found"` message, or the completion of that agent's
`stream_chat` turn together with its caught error, if any. -/
inductive DispatchEvent where
  | notFound (name : String)
  | completed (name : String) (error : Option String)
  deriving DecidableEq

/-- The name of a completed turn, if the event is a completion. -/
def completedName : DispatchEvent → Option String
  | DispatchEvent.completed n _ => some n
  | DispatchEvent.notFound _ => none

/-- The name of a reported `Agent not found`, if the event is one. -/
def notFoundName : DispatchEvent → Option String
  | DispatchEvent.notFound n => some n
  | DispatchEvent.completed _ _ => none

/-- The submission loop plus the `future.result()` join of
`chat_with_agents`: every registered target name gets exactly one
`stream_chat` turn submitted, every unknown name is reported immediately,
and the function only returns once each submitted turn has produced its
completion event.  The thread pool is modelled by running the submitted
turns sequentially: the barrier join means all of them finish before the
call returns, and each agent's history mutation is folded back into the
registry. -/
def dispatchList (msg : String) (st : ChatSettings) (rt : ChatRequest → StreamResult) :
    List (String × Agent) → List String → List (String × Agent) × List DispatchEvent
  | ags, [] => (ags, [])
  | ags, n :: rest =>
    match lookupAgent ags n with
    | some a =>
      let r := stream_chat a msg st rt
      let next := dispatchList msg st rt (updateAgent ags n r.1) rest
      (next.1, DispatchEvent.completed n r.2 :: next.2)
    | none =>
      let next := dispatchList msg st rt ags rest
      (next.1, DispatchEvent.notFound n :: next.2)

/-- `MultiAgentChat.chat_with_agents`: fetch `chat_settings` (empty dict
default), submit one turn per registered target name, report unknown
names, and join every submitted future before returning. -/
def chat_with_agents (c : MultiAgentChat) (message : String) (agent_names : List String)
    (rt : ChatRequest → StreamResult) : MultiAgentChat × List DispatchEvent :=
  let settings := c.config.chat_settings.getD { stream := none, temperature := none }
  let r := dispatchList message settings rt c.agents agent_names
  ({ c with agents := r.1 }, r.2)

/-- Outcome of `main` past the point where it could exit. -/
inductive MainOutcome where
  | exitNoAgents
  | ranChat (c : MultiAgentChat)

/-- The start of `main`: construct `MultiAgentChat` (any escaping
exception propagates), then `sys.exit(1)` when no agents were created,
otherwise enter the interactive loop. -/
def mainFlow (fileContents : Option Config)
    (createOk : String → ModelConfig → Bool) : Except PyError MainOutcome :=
  match MultiAgentChat.init fileContents createOk with
  | Except.error e => Except.error e
  | Except.ok c =>
    if c.agents.isEmpty then Except.ok MainOutcome.exitNoAgents
    else Except.ok (MainOutcome.ranChat c)

/-! ## Concrete objects used by witnesses and counterexamples -/

/-- A registered agent named `X`. -/
def agX : Agent := Agent.init "X" "modelX" "sys"

/-- A config whose `models` key is present (registry built elsewhere). -/
def cfg0 : Config := { models := some [], chat_settings := none }

/-- An orchestrator with the single registered agent `X`. -/
def cX : MultiAgentChat := { config := cfg0, agents := [("X", agX)] }

/-- A runtime that always streams the single chunk `"hello"`. -/
def rt0 : ChatRequest → StreamResult := fun _ => StreamResult.ok ["hello"]

/-- A runtime whose call always raises. -/
def rtErr : ChatRequest → StreamResult := fun _ => StreamResult.err "boom"

/-- Default settings value, for concrete instantiations. -/
def st0 : ChatSettings := { stream := none, temperature := none }

/-- The role sequence `user, assistant, user, assistant, ...` produced by
`n` completed turns. -/
def rolePattern : Nat → List String
  | 0 => []
  | n + 1 => "user" :: "assistant" :: rolePattern n

/-- Iterate successful `stream_chat` calls: for each `(message, chunks)`
pair the runtime streams exactly `chunks` without raising. -/
def runSucc (settings : ChatSettings) : Agent → List (String × List String) → Agent
  | a, [] => a
  | a, t :: ts =>
    runSucc settings (stream_chat a t.1 settings (fun _ => StreamResult.ok t.2)).1 ts

/-! ## Lemmas about the sanitizer core -/

theorem startsWith_append (pat : List Char) :
    ∀ (s : List Char), startsWith pat s = true → pat ++ s.drop pat.length = s := by
  induction pat with
  | nil => intro s _; simp
  | cons p ps ih =>
    intro s h
    cases s with
    | nil => simp [startsWith] at h
    | cons c cs =>
      simp only [startsWith, Bool.and_eq_true, beq_iff_eq] at h
      simp only [List.length_cons, List.cons_append, List.drop_succ_cons]
      rw [h.1, ih cs h.2]

theorem startsWith_self (pat : List Char) (x : List Char) :
    startsWith pat (pat ++ x) = true := by
  induction pat with
  | nil => rfl
  | cons p ps ih => simp [startsWith, ih]

theorem splitFirst_cons_pos (pat : List Char) (c : Char) (cs : List Char)
    (h : startsWith pat (c :: cs) = true) :
    splitFirst pat (c :: cs) = some ([], (c :: cs).drop pat.length) := by
  rw [splitFirst, if_pos h]

theorem splitFirst_cons_neg (pat : List Char) (c : Char) (cs : List Char)
    (h : startsWith pat (c :: cs) = false) :
    splitFirst pat (c :: cs) =
      match splitFirst pat cs with
      | some (pre, rest) => some (c :: pre, rest)
      | none => none := by
  rw [splitFirst, if_neg (by simp [h])]

theorem splitFirst_sound (pat : List Char) :
    ∀ (s pre rest : List Char), splitFirst pat s = some (pre, rest) →
      s = pre ++ pat ++ rest := by
  intro s
  induction s with
  | nil => intro pre rest h; simp [splitFirst] at h
  | cons c cs ih =>
    intro pre rest h
    by_cases hs : startsWith pat (c :: cs) = true
    · rw [splitFirst_cons_pos pat c cs hs] at h
      simp only [Option.some.injEq, Prod.mk.injEq] at h
      obtain ⟨h1, h2⟩ := h
      subst h1
      subst h2
      simp only [List.nil_append]
      exact (startsWith_append pat (c :: cs) hs).symm
    · rw [splitFirst_cons_neg pat c cs (by simpa using hs)] at h
      cases hr : splitFirst pat cs with
      | none => rw [hr] at h; simp at h
      | some pr =>
        obtain ⟨pre', rest'⟩ := pr
        rw [hr] at h
        simp only [Option.some.injEq, Prod.mk.injEq] at h
        obtain ⟨h1, h2⟩ := h
        subst h1
        subst h2
        rw [ih pre' rest' hr]
        simp

theorem splitFirst_marker (ps : List Char) :
    ∀ (a b : List Char), (∀ c ∈ a, c ≠ '<') →
      splitFirst ('<' :: ps) (a ++ ('<' :: ps) ++ b) = some (a, b) := by
  intro a
  induction a with
  | nil =>
    intro b _
    show splitFirst ('<' :: ps) ('<' :: (ps ++ b)) = some ([], b)
    rw [splitFirst_cons_pos ('<' :: ps) '<' (ps ++ b) (startsWith_self ('<' :: ps) b)]
    simp only [List.length_cons, List.drop_succ_cons, List.drop_left]
  | cons c a' ih =>
    intro b h
    have hc : c ≠ '<' := h c (by simp)
    have hb : ('<' == c) = false := beq_eq_false_iff_ne.mpr (Ne.symm hc)
    have hrec := ih b (fun d hd => h d (by simp [hd]))
    have hsw : startsWith ('<' :: ps) (c :: (a' ++ ('<' :: ps) ++ b)) = false := by
      simp [startsWith, hb]
    show splitFirst ('<' :: ps) (c :: (a' ++ ('<' :: ps) ++ b)) = some (c :: a', b)
    rw [splitFirst_cons_neg ('<' :: ps) c (a' ++ ('<' :: ps) ++ b) hsw, hrec]

theorem removeThinkFuel_nil (fuel : Nat) : removeThinkFuel fuel [] = [] := by
  cases fuel <;> rfl

theorem removeThinkFuel_congr :
    ∀ (f1 : Nat) (s : List Char) (f2 : Nat), s.length ≤ f1 → s.length ≤ f2 →
      removeThinkFuel f1 s = removeThinkFuel f2 s := by
  intro f1
  induction f1 with
  | zero =>
    intro s f2 h1 _
    have : s = [] := List.eq_nil_of_length_eq_zero (Nat.le_zero.mp h1)
    subst this
    rw [removeThinkFuel_nil, removeThinkFuel_nil]
  | succ f ih =>
    intro s f2 h1 h2
    cases f2 with
    | zero =>
      have : s = [] := List.eq_nil_of_length_eq_zero (Nat.le_zero.mp h2)
      subst this
      rw [removeThinkFuel_nil, removeThinkFuel_nil]
    | succ g =>
      cases ho : splitFirst opnTag s with
      | none => simp [removeThinkFuel, ho]
      | some pr =>
        obtain ⟨pre, rest⟩ := pr
        cases hc : splitFirst clsTag rest with
        | none => simp [removeThinkFuel, ho, hc]
        | some pr2 =>
          obtain ⟨mid, rest2⟩ := pr2
          simp only [removeThinkFuel, ho, hc]
          have e1 := congrArg List.length (splitFirst_sound opnTag s pre rest ho)
          have e2 := congrArg List.length (splitFirst_sound clsTag rest mid rest2 hc)
          simp only [List.length_append] at e1 e2
          have hop : opnTag.length = 7 := by decide
          have hcl : clsTag.length = 8 := by decide
          rw [hop] at e1; rw [hcl] at e2
          rw [ih rest2 g (by omega) (by omega)]

theorem removeThink_no_opn (s : List Char) (h : splitFirst opnTag s = none) :
    removeThink s = s := by
  cases s with
  | nil => rfl
  | cons c cs => simp [removeThink, removeThinkFuel, h]

theorem removeThink_no_cls (s pre rest : List Char)
    (h1 : splitFirst opnTag s = some (pre, rest))
    (h2 : splitFirst clsTag rest = none) :
    removeThink s = s := by
  cases s with
  | nil => simp [splitFirst] at h1
  | cons c cs => simp [removeThink, removeThinkFuel, h1, h2]

theorem removeThink_step (s pre rest mid rest2 : List Char)
    (h1 : splitFirst opnTag s = some (pre, rest))
    (h2 : splitFirst clsTag rest = some (mid, rest2)) :
    removeThink s = pre ++ removeThink rest2 := by
  cases s with
  | nil => simp [splitFirst] at h1
  | cons c cs =>
    have e1 := congrArg List.length (splitFirst_sound opnTag (c :: cs) pre rest h1)
    have e2 := congrArg List.length (splitFirst_sound clsTag rest mid rest2 h2)
    simp only [List.length_append, List.length_cons] at e1 e2
    have hop : opnTag.length = 7 := by decide
    have hcl : clsTag.length = 8 := by decide
    rw [hop] at e1
    rw [hcl] at e2
    show removeThinkFuel (c :: cs).length (c :: cs) = pre ++ removeThink rest2
    simp only [List.length_cons, removeThinkFuel, h1, h2]
    rw [removeThinkFuel_congr cs.length rest2 rest2.length (by omega) (Nat.le_refl _)]
    rfl

theorem dropWhile_head_false {α : Type} {p : α → Bool} :
    ∀ {l : List α} {c : α} {r : List α}, List.dropWhile p l = c :: r → p c = false := by
  intro l
  induction l with
  | nil => intro c r h; simp [List.dropWhile] at h
  | cons a t ih =>
    intro c r h
    by_cases ha : p a = true
    · rw [List.dropWhile_cons, if_pos ha] at h
      exact ih h
    · rw [List.dropWhile_cons, if_neg ha] at h
      injection h with h1 _
      subst h1
      simpa using ha

theorem dropWhile_idem {α : Type} (p : α → Bool) (l : List α) :
    List.dropWhile p (List.dropWhile p l) = List.dropWhile p l := by
  cases h : List.dropWhile p l with
  | nil => rfl
  | cons c r => rw [List.dropWhile_cons, if_neg (by simp [dropWhile_head_false h])]

theorem dropWhile_app_sub {α : Type} (p : α → Bool) (l : List α) :
    ∃ t, t ++ List.dropWhile p l = l := by
  induction l with
  | nil => exact ⟨[], rfl⟩
  | cons a t ih =>
    by_cases ha : p a = true
    · obtain ⟨w, hw⟩ := ih
      rw [List.dropWhile_cons, if_pos ha]
      exact ⟨a :: w, by simp [hw]⟩
    · rw [List.dropWhile_cons, if_neg ha]
      exact ⟨[], rfl⟩

theorem dropWhile_eq_self_of_app {α : Type} (p : α → Bool) (v t u : List α)
    (hu : v ++ t = u) (h : List.dropWhile p u = u) : List.dropWhile p v = v := by
  cases v with
  | nil => rfl
  | cons c v' =>
    subst hu
    have hc : p c = false := by
      by_cases hp : p c = true
      · rw [List.cons_append, List.dropWhile_cons, if_pos hp] at h
        exact dropWhile_head_false h
      · simpa using hp
    rw [List.dropWhile_cons, if_neg (by simp [hc])]

theorem pyStrip_idem (l : List Char) : pyStrip (pyStrip l) = pyStrip l := by
  have hu : List.dropWhile isPySpace (List.dropWhile isPySpace l)
      = List.dropWhile isPySpace l := dropWhile_idem isPySpace l
  obtain ⟨t, ht⟩ := dropWhile_app_sub isPySpace (List.dropWhile isPySpace l).reverse
  have hv : pyStrip l ++ t.reverse = List.dropWhile isPySpace l := by
    simp only [pyStrip]
    rw [← List.reverse_append, ht, List.reverse_reverse]
  have hA : List.dropWhile isPySpace (pyStrip l) = pyStrip l :=
    dropWhile_eq_self_of_app isPySpace (pyStrip l) t.reverse
      (List.dropWhile isPySpace l) hv hu
  show ((List.dropWhile isPySpace (pyStrip l)).reverse.dropWhile isPySpace).reverse
      = pyStrip l
  rw [hA]
  show (((List.dropWhile isPySpace
      (List.dropWhile isPySpace l).reverse).reverse).reverse.dropWhile isPySpace).reverse
      = pyStrip l
  rw [List.reverse_reverse, dropWhile_idem]
  rfl

theorem removeThink_marker (pre mid post : List Char)
    (h1 : ∀ c ∈ pre, c ≠ '<') (h2 : ∀ c ∈ mid, c ≠ '<') :
    removeThink (pre ++ opnTag ++ mid ++ clsTag ++ post) = pre ++ removeThink post := by
  have ho : splitFirst opnTag (pre ++ opnTag ++ mid ++ clsTag ++ post)
      = some (pre, mid ++ clsTag ++ post) := by
    have := splitFirst_marker ['t', 'h', 'i', 'n', 'k', '>'] pre (mid ++ clsTag ++ post) h1
    simpa [opnTag, List.append_assoc] using this
  have hc : splitFirst clsTag (mid ++ clsTag ++ post) = some (mid, post) := by
    have := splitFirst_marker ['/', 't', 'h', 'i', 'n', 'k', '>'] mid post h2
    simpa [clsTag, List.append_assoc] using this
  exact removeThink_step _ _ _ _ _ ho hc

/-! ## Lemmas about `stream_chat` and the dispatch loop -/

theorem stream_chat_ok (a : Agent) (m : String) (st : ChatSettings)
    (rt : ChatRequest → StreamResult) (chunks : List String)
    (h : rt (streamChatRequest (add_message a "user" m) st) = StreamResult.ok chunks) :
    stream_chat a m st rt
      = (add_message (add_message a "user" m) "assistant"
          (get_clean_response (String.join chunks)), none) := by
  simp [stream_chat, h]

theorem stream_chat_err (a : Agent) (m : String) (st : ChatSettings)
    (rt : ChatRequest → StreamResult) (e : String)
    (h : rt (streamChatRequest (add_message a "user" m) st) = StreamResult.err e) :
    stream_chat a m st rt
      = (add_message a "user" m, some ("Error from " ++ a.name ++ ": " ++ e)) := by
  simp [stream_chat, h]

theorem stream_chat_app (a : Agent) (m : String) (st : ChatSettings)
    (rt : ChatRequest → StreamResult) :
    ∃ t, (stream_chat a m st rt).1.conversation_history = a.conversation_history ++ t := by
  cases h : rt (streamChatRequest (add_message a "user" m) st) with
  | ok chunks =>
    rw [stream_chat_ok a m st rt chunks h]
    exact ⟨[{ role := "user", content := m },
            { role := "assistant", content := get_clean_response (String.join chunks) }],
      by simp [add_message]⟩
  | err e =>
    rw [stream_chat_err a m st rt e h]
    exact ⟨[{ role := "user", content := m }], by simp [add_message]⟩

theorem runSucc_roles (settings : ChatSettings) :
    ∀ (turns : List (String × List String)) (a : Agent),
      (runSucc settings a turns).conversation_history.map Message.role
        = a.conversation_history.map Message.role ++ rolePattern turns.length := by
  intro turns
  induction turns with
  | nil => intro a; simp [runSucc, rolePattern]
  | cons t ts ih =>
    intro a
    rw [runSucc, ih]
    rw [stream_chat_ok a t.1 settings (fun _ => StreamResult.ok t.2) t.2 rfl]
    simp [add_message, rolePattern]

theorem rolePattern_length (n : Nat) : (rolePattern n).length = 2 * n := by
  induction n with
  | zero => rfl
  | succ k ih =>
    simp [rolePattern, ih]
    omega

theorem lookup_update_isSome (n : String) (a : Agent) :
    ∀ (l : List (String × Agent)) (m : String),
      (lookupAgent (updateAgent l n a) m).isSome = (lookupAgent l m).isSome := by
  intro l
  induction l with
  | nil => intro m; rfl
  | cons kv rest ih =>
    intro m
    obtain ⟨k, v⟩ := kv
    by_cases hk : k = n
    · subst hk
      simp only [updateAgent, if_pos rfl]
      by_cases hm : k = m <;> simp [lookupAgent, hm]
    · simp only [updateAgent, if_neg hk]
      by_cases hm : k = m <;> simp [lookupAgent, hm, ih]

theorem lookup_update_isNone (n : String) (a : Agent) (l : List (String × Agent))
    (m : String) :
    (lookupAgent (updateAgent l n a) m).isNone = (lookupAgent l m).isNone := by
  have h := lookup_update_isSome n a l m
  cases h1 : lookupAgent (updateAgent l n a) m <;>
    cases h2 : lookupAgent l m <;> simp_all

theorem dispatch_completed (msg : String) (st : ChatSettings)
    (rt : ChatRequest → StreamResult) :
    ∀ (names : List String) (ags : List (String × Agent)),
      (dispatchList msg st rt ags names).2.filterMap completedName
        = names.filter (fun n => (lookupAgent ags n).isSome) := by
  intro names
  induction names with
  | nil => intro ags; rfl
  | cons n rest ih =>
    intro ags
    cases h : lookupAgent ags n with
    | some a =>
      simp only [dispatchList, h, List.filterMap_cons, completedName, List.filter_cons]
      rw [ih]
      simp [lookup_update_isSome]
    | none =>
      simp only [dispatchList, h, List.filterMap_cons, completedName, List.filter_cons]
      rw [ih]
      simp

theorem dispatch_notfound (msg : String) (st : ChatSettings)
    (rt : ChatRequest → StreamResult) :
    ∀ (names : List String) (ags : List (String × Agent)),
      (dispatchList msg st rt ags names).2.filterMap notFoundName
        = names.filter (fun n => (lookupAgent ags n).isNone) := by
  intro names
  induction names with
  | nil => intro ags; rfl
  | cons n rest ih =>
    intro ags
    cases h : lookupAgent ags n with
    | some a =>
      simp only [dispatchList, h, List.filterMap_cons, notFoundName, List.filter_cons]
      rw [ih]
      simp [lookup_update_isNone]
    | none =>
      simp only [dispatchList, h, List.filterMap_cons, notFoundName, List.filter_cons]
      rw [ih]
      simp

theorem count_filter_self (p : String → Bool) :
    ∀ (l : List String) (n : String), p n = true → (l.filter p).count n = l.count n := by
  intro l
  induction l with
  | nil => intro n _; rfl
  | cons a t ih =>
    intro n hn
    by_cases ha : p a = true
    · rw [List.filter_cons_of_pos ha]
      rw [List.count_cons, List.count_cons, ih n hn]
    · rw [List.filter_cons_of_neg ha]
      have hne : (a == n) = false := by
        refine beq_eq_false_iff_ne.mpr ?_
        intro he
        subst he
        exact ha hn
      rw [List.count_cons, hne, ih n hn]
      simp

theorem count_filter_zero (p : String → Bool) (l : List String) (n : String)
    (hn : p n = false) : (l.filter p).count n = 0 := by
  refine List.count_eq_zero.mpr ?_
  intro hmem
  have hp := List.of_mem_filter hmem
  rw [hn] at hp
  exact Bool.noConfusion hp

theorem dispatch_length (msg : String) (st : ChatSettings)
    (rt : ChatRequest → StreamResult) :
    ∀ (names : List String) (ags : List (String × Agent)),
      (dispatchList msg st rt ags names).2.length = names.length := by
  intro names
  induction names with
  | nil => intro ags; rfl
  | cons n rest ih =>
    intro ags
    cases h : lookupAgent ags n with
    | some a => simp [dispatchList, h, ih]
    | none => simp [dispatchList, h, ih]

/-! ## Claim theorems -/

/-- C1: after `N` successful `converse` (`stream_chat`) calls the agent's
history has exactly `2*N` entries whose roles alternate
`user, assistant, ...` starting with `user`; and every history-mutating
operation (`add_message`, `stream_chat` on either path) only appends:
the old history is an initial segment of the new one, so entries are
never reordered or deleted. -/
theorem converse_history_shape (name model sp : String) (settings : ChatSettings)
    (turns : List (String × List String)) :
    ((runSucc settings (Agent.init name model sp) turns).conversation_history.map
          Message.role = rolePattern turns.length
      ∧ (runSucc settings (Agent.init name model sp) turns).conversation_history.length
          = 2 * turns.length)
  ∧ (∀ (a : Agent) (r ct : String),
      ∃ t, (add_message a r ct).conversation_history = a.conversation_history ++ t)
  ∧ ∀ (a : Agent) (m : String) (st : ChatSettings) (rt : ChatRequest → StreamResult),
      ∃ t, (stream_chat a m st rt).1.conversation_history
              = a.conversation_history ++ t := by
  refine ⟨⟨?_, ?_⟩, ?_, ?_⟩
  · rw [runSucc_roles]
    simp [Agent.init]
  · have h := congrArg List.length (runSucc_roles settings turns (Agent.init name model sp))
    simpa [Agent.init, rolePattern_length] using h
  · intro a r ct
    exact ⟨[{ role := r, content := ct }], rfl⟩
  · intro a m st rt
    exact stream_chat_app a m st rt

/-- C2 counterexample: the sanitizer is not idempotent.  On
`"<thi<think></think>nk>foo</think>"` the first pass deletes the
well-formed inner pair and thereby splices the surrounding text into a
brand-new `<think>...</think>` span, which only the second pass removes:
`clean x = "<think>foo</think>"` but `clean (clean x) = ""`. -/
theorem clean_not_idempotent :
    get_clean_response "<thi<think></think>nk>foo</think>" = "<think>foo</think>"
  ∧ get_clean_response (get_clean_response "<thi<think></think>nk>foo</think>") = ""
  ∧ ("<think>foo</think>" : String) ≠ "" :=
  ⟨by decide, by decide, by decide⟩

/-- C2 (amended): the sanitizer is idempotent on every input whose cleaned
form is a fixed point of the marker-removal pass — i.e. whenever one pass
does not splice a new `<think>...</think>` span together; trimming is
always idempotent. -/
theorem clean_idem_of_fixed (x : String)
    (h : removeThink (get_clean_response x).data = (get_clean_response x).data) :
    get_clean_response (get_clean_response x) = get_clean_response x := by
  show String.mk (pyStrip (removeThink (get_clean_response x).data))
      = get_clean_response x
  rw [h]
  show String.mk (pyStrip (pyStrip (removeThink x.data))) = get_clean_response x
  rw [pyStrip_idem]
  rfl

/-- Witness for C2 (amended) at `"a<think>b</think>c "`. -/
theorem clean_idem_of_fixed_witness :
    removeThink (get_clean_response "a<think>b</think>c ").data
        = (get_clean_response "a<think>b</think>c ").data
  ∧ get_clean_response (get_clean_response "a<think>b</think>c ")
        = get_clean_response "a<think>b</think>c " :=
  ⟨by decide, clean_idem_of_fixed "a<think>b</think>c " (by decide)⟩

/-- C3 counterexample: nested markers are not removed as a whole span.
On `"a<think>x<think>y</think>z</think>b"` the lazy match ends at the
first (inner) close marker, so the outer region's tail `z</think>`
survives: the result is `"az</think>b"`, not `"ab"`. -/
theorem clean_nested_cex :
    get_clean_response "a<think>x<think>y</think>z</think>b" = "az</think>b"
  ∧ ("az</think>b" : String) ≠ "ab" :=
  ⟨by decide, by decide⟩

/-- C3 (amended): each pass removes the leftmost-shortest
`<think>...</think>` span (not nested-aware) and the result is trimmed:
for text `pre ++ <think> ++ mid ++ </think> ++ post` where `pre` and
`mid` contain no `'<'`, cleaning yields the trim of `pre` followed by the
marker-removal pass of `post`. -/
theorem clean_single_marker (pre mid post : List Char)
    (h1 : ∀ c ∈ pre, c ≠ '<') (h2 : ∀ c ∈ mid, c ≠ '<') :
    get_clean_response (String.mk (pre ++ opnTag ++ mid ++ clsTag ++ post))
      = String.mk (pyStrip (pre ++ removeThink post)) := by
  show String.mk (pyStrip (removeThink (pre ++ opnTag ++ mid ++ clsTag ++ post))) = _
  rw [removeThink_marker pre mid post h1 h2]

/-- Witness for C3 (amended): the spec's own example,
`clean "a<think>secret</think>b" = "ab"`. -/
theorem clean_single_marker_witness :
    (∀ c ∈ "a".data, c ≠ '<')
  ∧ get_clean_response "a<think>secret</think>b" = "ab" := by
  refine ⟨by decide, ?_⟩
  have h := clean_single_marker "a".data "secret".data "b".data (by decide) (by decide)
  have e : "a<think>secret</think>b"
      = String.mk ("a".data ++ opnTag ++ "secret".data ++ clsTag ++ "b".data) := by decide
  rw [e, h]
  decide

/-- C4 counterexample: an opening marker with no matching close is left
in place, not removed through end-of-text: `clean "a<think>secret"` is
`"a<think>secret"`, not `"a"`. -/
theorem clean_unterminated_cex :
    get_clean_response "a<think>secret" = "a<think>secret"
  ∧ ("a<think>secret" : String) ≠ "a" :=
  ⟨by decide, by decide⟩

/-- C4 (amended): when the text contains an opening marker but no closing
marker after it, the regex pass matches nothing: the unterminated region
is preserved verbatim and only surrounding whitespace is trimmed. -/
theorem clean_unterminated (s pre rest : List Char)
    (h1 : splitFirst opnTag s = some (pre, rest))
    (h2 : containsSub clsTag rest = false) :
    removeThink s = s
  ∧ get_clean_response (String.mk s) = String.mk (pyStrip s) := by
  have hn : splitFirst clsTag rest = none := by
    cases hc : splitFirst clsTag rest with
    | none => rfl
    | some pr => rw [containsSub, hc] at h2; simp at h2
  refine ⟨removeThink_no_cls s pre rest h1 hn, ?_⟩
  show String.mk (pyStrip (removeThink s)) = _
  rw [removeThink_no_cls s pre rest h1 hn]

/-- Witness for C4 (amended) at `"a<think>secret"`. -/
theorem clean_unterminated_witness :
    containsSub clsTag "secret".data = false
  ∧ (removeThink "a<think>secret".data = "a<think>secret".data
     ∧ get_clean_response (String.mk "a<think>secret".data)
         = String.mk (pyStrip "a<think>secret".data)) :=
  ⟨by decide,
    clean_unterminated "a<think>secret".data "a".data "secret".data
      (by decide) (by decide)⟩

/-- C5: when the runtime call inside a `converse` turn raises, the
failure is returned as a per-agent message carrying the agent's name
(the exception is caught, so it cannot crash the process or other
agents), the user turn appended at the start remains the only change to
the history, and no assistant turn is appended. -/
theorem converse_failure (a : Agent) (m : String) (st : ChatSettings)
    (rt : ChatRequest → StreamResult) (e : String)
    (h : rt (streamChatRequest (add_message a "user" m) st) = StreamResult.err e) :
    (stream_chat a m st rt).1.conversation_history
        = a.conversation_history ++ [{ role := "user", content := m }]
  ∧ (stream_chat a m st rt).2 = some ("Error from " ++ a.name ++ ": " ++ e) := by
  rw [stream_chat_err a m st rt e h]
  exact ⟨by simp [add_message], rfl⟩

/-- Witness for C5: agent `X` with an always-raising runtime. -/
theorem converse_failure_witness :
    rtErr (streamChatRequest (add_message agX "user" "hi") st0) = StreamResult.err "boom"
  ∧ ((stream_chat agX "hi" st0 rtErr).1.conversation_history
        = agX.conversation_history ++ [{ role := "user", content := "hi" }]
     ∧ (stream_chat agX "hi" st0 rtErr).2
        = some ("Error from " ++ agX.name ++ ": " ++ "boom")) :=
  ⟨rfl, converse_failure agX "hi" st0 rtErr "boom" rfl⟩

/-- C6: `chat_with_agents` is a full-barrier join — its event list
contains exactly one terminal event per target name (so it returns only
after every submitted `converse` turn has finished, success or failure),
and the completions are exactly the submitted (registered) names, in
order: no submitted agent's result is discarded. -/
theorem dispatch_barrier (c : MultiAgentChat) (msg : String) (names : List String)
    (rt : ChatRequest → StreamResult) :
    (chat_with_agents c msg names rt).2.filterMap completedName
        = names.filter (fun n => (lookupAgent c.agents n).isSome)
  ∧ (chat_with_agents c msg names rt).2.length = names.length := by
  constructor
  · show (dispatchList msg (c.config.chat_settings.getD
        { stream := none, temperature := none }) rt c.agents names).2.filterMap
          completedName = _
    exact dispatch_completed msg _ rt names c.agents
  · show (dispatchList msg (c.config.chat_settings.getD
        { stream := none, temperature := none }) rt c.agents names).2.length = _
    exact dispatch_length msg _ rt names c.agents

/-- C7: in a dispatch over a duplicate-free target set, every
unregistered name is reported as not found (and the rest of the batch
still runs), every registered name receives exactly one `converse`
invocation, and dispatching an empty target set performs zero
invocations and returns the orchestrator unchanged. -/
theorem dispatch_targets (c : MultiAgentChat) (msg : String) (names : List String)
    (rt : ChatRequest → StreamResult) (h : names.Nodup) :
    (chat_with_agents c msg names rt).2.filterMap notFoundName
        = names.filter (fun n => (lookupAgent c.agents n).isNone)
  ∧ (chat_with_agents c msg names rt).2.filterMap completedName
        = names.filter (fun n => (lookupAgent c.agents n).isSome)
  ∧ (∀ n ∈ names, (lookupAgent c.agents n).isSome →
      ((chat_with_agents c msg names rt).2.filterMap completedName).count n = 1)
  ∧ chat_with_agents c msg [] rt = (c, []) := by
  have hcomp : (chat_with_agents c msg names rt).2.filterMap completedName
      = names.filter (fun n => (lookupAgent c.agents n).isSome) := by
    show (dispatchList msg (c.config.chat_settings.getD
        { stream := none, temperature := none }) rt c.agents names).2.filterMap
          completedName = _
    exact dispatch_completed msg _ rt names c.agents
  refine ⟨?_, hcomp, ?_, rfl⟩
  · show (dispatchList msg (c.config.chat_settings.getD
        { stream := none, temperature := none }) rt c.agents names).2.filterMap
          notFoundName = _
    exact dispatch_notfound msg _ rt names c.agents
  · intro n hmem hsome
    rw [hcomp,
      count_filter_self (fun m => (lookupAgent c.agents m).isSome) names n hsome]
    exact List.count_eq_one_of_mem h hmem

/-- Witness for C7: registry holding only `X`, target set
`["X", "ghost"]` — the spec's own example. -/
theorem dispatch_targets_witness :
    List.Nodup ["X", "ghost"]
  ∧ ((chat_with_agents cX "hi" ["X", "ghost"] rt0).2.filterMap notFoundName
        = ["X", "ghost"].filter (fun n => (lookupAgent cX.agents n).isNone)
     ∧ (chat_with_agents cX "hi" ["X", "ghost"] rt0).2.filterMap completedName
        = ["X", "ghost"].filter (fun n => (lookupAgent cX.agents n).isSome)
     ∧ (∀ n ∈ ["X", "ghost"], (lookupAgent cX.agents n).isSome →
          ((chat_with_agents cX "hi" ["X", "ghost"] rt0).2.filterMap
              completedName).count n = 1)
     ∧ chat_with_agents cX "hi" [] rt0 = (cX, [])) :=
  ⟨by decide, dispatch_targets cX "hi" ["X", "ghost"] rt0 (by decide)⟩

/-- C8 counterexample: `Agent.stream_chat` hardcodes `stream=True` in its
`ollama.chat` call, so with `chat_settings = {'stream': False}` the
runtime is still asked for incremental streaming output, not a single
complete response. -/
theorem stream_flag_cex :
    (streamChatRequest agX { stream := some false, temperature := none }).stream = true
  ∧ ({ stream := some false, temperature := none } : ChatSettings).stream.getD true
      = false :=
  ⟨rfl, rfl⟩

/-- C8 (amended): only `chat_with_model` passes the settings' `stream`
flag (default `true`) to the runtime; `Agent.stream_chat` always requests
streaming regardless of the settings.  Both pass
`temperature` (default `0.7`). -/
theorem stream_flag_passed (model msg : String) (settings : ChatSettings) (a : Agent) :
    (chatWithModelRequest model msg settings).stream = settings.stream.getD true
  ∧ (streamChatRequest a settings).stream = true
  ∧ (chatWithModelRequest model msg settings).temperature
      = settings.temperature.getD (7 / 10)
  ∧ (streamChatRequest a settings).temperature = settings.temperature.getD (7 / 10) :=
  ⟨rfl, rfl, rfl, rfl⟩

/-- C9 counterexample: duplicate names in one batch's target list are
neither disallowed nor collapsed — with registry `{X}` and targets
`["X", "X"]` the batch performs two `converse` invocations for `X`, and
`X`'s history is mutated by both (four entries from a single batch). -/
theorem duplicate_targets_cex :
    ((chat_with_agents cX "hi" ["X", "X"] rt0).2.filterMap completedName).count "X" = 2
  ∧ (lookupAgent (chat_with_agents cX "hi" ["X", "X"] rt0).1.agents "X").map
        (fun a => a.conversation_history.length) = some 4 :=
  ⟨by decide, by decide⟩

/-- C9 (amended): a dispatch batch performs one `converse` invocation per
occurrence of a registered name in the target list — duplicates are kept,
so an agent listed `k` times receives `k` invocations in that batch. -/
theorem dispatch_per_occurrence (c : MultiAgentChat) (msg : String)
    (names : List String) (rt : ChatRequest → StreamResult) (n : String) :
    ((chat_with_agents c msg names rt).2.filterMap completedName).count n
      = if (lookupAgent c.agents n).isSome then names.count n else 0 := by
  have hcomp : (chat_with_agents c msg names rt).2.filterMap completedName
      = names.filter (fun m => (lookupAgent c.agents m).isSome) := by
    show (dispatchList msg (c.config.chat_settings.getD
        { stream := none, temperature := none }) rt c.agents names).2.filterMap
          completedName = _
    exact dispatch_completed msg _ rt names c.agents
  rw [hcomp]
  by_cases hn : (lookupAgent c.agents n).isSome = true
  · rw [if_pos hn,
      count_filter_self (fun m => (lookupAgent c.agents m).isSome) names n hn]
  · rw [if_neg hn]
    exact count_filter_zero (fun m => (lookupAgent c.agents m).isSome) names n
      (by simpa using hn)

/-- C10: when the loaded configuration has no `models` key — exactly what
`load_config` yields (the empty dict) when the file is missing or
malformed — constructing `MultiAgentChat` raises an uncaught
`KeyError('models')` from `setup_agents`, so `main` never reaches the
documented `no agents available, exit 1` path in that case. -/
theorem missing_models_keyerror (createOk : String → ModelConfig → Bool)
    (cs : Option ChatSettings) :
    load_config none = emptyConfig
  ∧ emptyConfig.models = none
  ∧ mainFlow none createOk = Except.error (PyError.keyError "models")
  ∧ mainFlow (some { models := none, chat_settings := cs }) createOk
      = Except.error (PyError.keyError "models")
  ∧ mainFlow none createOk ≠ Except.ok MainOutcome.exitNoAgents := by
  refine ⟨rfl, rfl, rfl, rfl, ?_⟩
  intro hcontra
  rw [show mainFlow none createOk = Except.error (PyError.keyError "models") from rfl]
    at hcontra
  exact Except.noConfusion hcontra
